import Mathlib

/-!
Verification of the budget aggregation core of a Python budget planner.

The Python functions are shallowly embedded as Lean definitions; monetary
amounts are modelled as exact rationals, month data as a list of
key-amount pairs in dictionary insertion order.  String helpers model the
Python operations used by the source (substring containment, lower-casing
and decimal formatting) for the ASCII strings the application works with.
-/

namespace BudgetPlanner

/-- A transaction key: main category, subcategory, item. -/
abbrev TransKey := String × String × String

/-- All transactions of one month, in dictionary insertion order.
Models the items of MonthData.get_all_transactions with exact amounts. -/
abbrev MonthData := List (TransKey × ℚ)

/-- Membership of a character list as a contiguous segment of another,
models the Python operator needle in hay on strings. -/
def listHasSeg (needle : List Char) : List Char → Bool
  | [] => needle.isPrefixOf []
  | c :: t => needle.isPrefixOf (c :: t) || listHasSeg needle t

/-- Python substring test: needle in hay. -/
def pyContains (hay needle : String) : Bool := listHasSeg needle.data hay.data

/-- The Python test s.lower().startswith(pre), with the ASCII lowering of
Char.toLower, on the character lists of the strings. -/
def pyLowerStarts (s pre : String) : Bool :=
  pre.data.isPrefixOf (s.data.map Char.toLower)

/-- Insertion-ordered dictionary update, models d[k] = d.get(k, 0) + a. -/
def addToCat (cats : List (String × ℚ)) (c : String) (a : ℚ) : List (String × ℚ) :=
  match cats with
  | [] => [(c, a)]
  | (k, v) :: t => if k = c then (k, v + a) :: t else (k, v) :: addToCat t c a

/-- The running totals dictionary of BudgetCalculator.calculate_totals.
The source key named variable is rendered as var here because variable is
a reserved word in Lean. -/
structure Totals where
  income : ℚ
  expenses : ℚ
  fixed : ℚ
  var : ℚ
  balance : ℚ
  categories : List (String × ℚ)
deriving Repr, DecidableEq

/-- The loop body of BudgetCalculator.calculate_totals, folded over the
transactions: the branch cascade on the main-category name, followed by
the per-category dictionary update. -/
def calculateTotalsAux : MonthData → Totals → Totals
  | [], t => t
  | ((category, _subcat, _item), amount) :: rest, t =>
      let t1 :=
        if pyContains category "Einnahmen" || pyLowerStarts category "ein" then
          { t with income := t.income + amount }
        else if pyContains category "Fix" || pyLowerStarts category "fix" then
          { t with fixed := t.fixed + amount, expenses := t.expenses + amount }
        else if pyContains category "Variable" || pyLowerStarts category "var" then
          { t with var := t.var + amount, expenses := t.expenses + amount }
        else if category = "Sparen" then
          { t with expenses := t.expenses + amount, var := t.var + amount }
        else
          { t with expenses := t.expenses + amount, var := t.var + amount }
      calculateTotalsAux rest
        { t1 with categories := addToCat t1.categories category amount }

/-- BudgetCalculator.calculate_totals: fold the classification cascade over
all transactions, then set balance = income - expenses. -/
def calculate_totals (month_data : MonthData) : Totals :=
  let t := calculateTotalsAux month_data ⟨0, 0, 0, 0, 0, []⟩
  { t with balance := t.income - t.expenses }

/-- BudgetCalculator.calculate_savings_rate. -/
def calculate_savings_rate (income expenses : ℚ) : ℚ :=
  if income = 0 then 0 else ((income - expenses) / income) * 100

/-- The saving-rate expression of BudgetApp.recalculate_all:
balance / total_income * 100.0 if total_income > 0 else 0.0. -/
def app_saving_rate (total_income balance : ℚ) : ℚ :=
  if 0 < total_income then balance / total_income * 100 else 0

/-- The accumulation loop of BudgetCalculator.get_top_expenses: group the
amounts of every transaction whose category does not contain the substring
Einnahmen under the label category / subcategory. -/
def getTopAux : MonthData → List (String × ℚ) → List (String × ℚ)
  | [], acc => acc
  | ((category, subcat, _item), amount) :: rest, acc =>
      if pyContains category "Einnahmen" then getTopAux rest acc
      else getTopAux rest (addToCat acc (category ++ " / " ++ subcat) amount)

/-- Stable insertion of an element into a list already sorted descending
by the second component: the element goes in front of the first strictly
smaller entry, hence behind every earlier entry of equal amount. -/
def insDesc (x : String × ℚ) : List (String × ℚ) → List (String × ℚ)
  | [] => [x]
  | y :: t => if x.2 ≥ y.2 then x :: y :: t else y :: insDesc x t

/-- Stable descending sort by the second component; agrees with the Python
sorted(items, key amount, reverse=True), which is a stable sort. -/
def sortDesc : List (String × ℚ) → List (String × ℚ)
  | [] => []
  | x :: t => insDesc x (sortDesc t)

/-- BudgetCalculator.get_top_expenses: accumulate per-subcategory sums,
sort descending by amount (stable, as the Python sorted with reverse=True)
and keep the first n. -/
def get_top_expenses (month_data : MonthData) (n : Nat) : List (String × ℚ) :=
  (sortDesc (getTopAux month_data [])).take n

/-- BudgetCalculator.check_budget_limit. -/
def check_budget_limit (amount limit : ℚ) : Bool × ℚ :=
  if limit ≤ 0 then (false, 0)
  else (decide (amount > limit), amount / limit * 100)

/-- BudgetCalculator.forecast_trend.  The polyfit call of the source is an
ordinary least-squares line fit, written out with the closed OLS formulas
over exact rationals; the degenerate branch for fewer than two points is
taken verbatim from the source. -/
def forecast_trend (historical_data : List ℚ) (periods : Nat) : List ℚ × ℚ × ℚ :=
  if historical_data.length < 2 then
    (List.replicate periods ((historical_data.getLast?).getD 0), 0, 0)
  else
    let n : ℚ := historical_data.length
    let xs : List ℚ := (List.range historical_data.length).map (fun i => (i : ℚ))
    let sx := xs.sum
    let sy := historical_data.sum
    let sxy := ((xs.zip historical_data).map (fun p => p.1 * p.2)).sum
    let sxx := (xs.map (fun x => x ^ 2)).sum
    let slope := (n * sxy - sx * sy) / (n * sxx - sx ^ 2)
    let intercept := (sy - slope * sx) / n
    let forecast := (List.range periods).map
      (fun i => slope * ((historical_data.length + i : Nat) : ℚ) + intercept)
    (forecast, slope, intercept)

/-- Classification of a main-category name exactly as the specification
words it: a spec-side definition used to compare the source cascade
against the stated priority rule. -/
inductive CatClass
  | income
  | fixedCost
  | variableCost
deriving Repr, DecidableEq, BEq

/-- Modelled from the spec words of the classification rule: Income when
the name contains Einnahmen or its lowercase form starts with ein, else
Fixed when it contains Fix or starts with fix, else Variable when it
contains Variable or starts with var, else (including Sparen and every
other string) folded into the Variable bucket. -/
def classifySpec (name : String) : CatClass :=
  if pyContains name "Einnahmen" || pyLowerStarts name "ein" then .income
  else if pyContains name "Fix" || pyLowerStarts name "fix" then .fixedCost
  else if pyContains name "Variable" || pyLowerStarts name "var" then .variableCost
  else .variableCost

/-- Sum of the amounts of the transactions whose main-category name
satisfies a predicate. -/
def sumWhere (p : String → Bool) : MonthData → ℚ
  | [] => 0
  | ((c, _, _), a) :: rest => (if p c then a else 0) + sumWhere p rest

/-- ASCII decimal digit test, models the regex class of digits. -/
def isDigitChar (c : Char) : Bool := decide (48 ≤ c.toNat ∧ c.toNat ≤ 57)

/-- The ASCII character of a decimal digit. -/
def digitChar (n : ℕ) : Char := Char.ofNat (48 + n)

/-- Value of a list of ASCII digit characters read in base ten. -/
def digitsVal (l : List Char) : ℕ :=
  l.foldl (fun acc c => acc * 10 + (c.toNat - 48)) 0

/-- Characters removed by the Python strip method (ASCII whitespace). -/
def pyWhitespace (c : Char) : Bool :=
  c = ' ' || c = '\t' || c = '\n' || c = '\x0d' || c = '\x0b' || c = '\x0c'

/-- Python strip: drop leading and trailing whitespace. -/
def pyStrip (l : List Char) : List Char :=
  ((l.dropWhile pyWhitespace).reverse.dropWhile pyWhitespace).reverse

/-- Python replace of every comma by a period (single-character replace). -/
def pyReplaceCommaDot (l : List Char) : List Char :=
  l.map (fun c => if c = ',' then '.' else c)

/-- Exponent digits of a float literal: nonempty digit run. -/
def parseExpDigits (l : List Char) : Option ℕ :=
  if l ≠ [] ∧ l.all isDigitChar then some (digitsVal l) else none

/-- Scale factor named by the exponent part of a float literal, with an
optional sign. -/
def parseExpPart (l : List Char) : Option ℚ :=
  match l with
  | '+' :: r => (parseExpDigits r).map (fun e => (10 : ℚ) ^ e)
  | '-' :: r => (parseExpDigits r).map (fun e => 1 / (10 : ℚ) ^ e)
  | r => (parseExpDigits r).map (fun e => (10 : ℚ) ^ e)

/-- Unsigned part of the Python float literal grammar: digits with an
optional point and fraction, then an optional exponent.  The inf, nan and
underscore forms accepted by the Python float constructor are not
modelled; no behaviour relevant to the claims depends on them. -/
def parseUnsignedFloat (l : List Char) : Option ℚ :=
  let ip := l.takeWhile isDigitChar
  let rest := l.dropWhile isDigitChar
  match rest with
  | [] => if ip = [] then none else some ((digitsVal ip : ℚ))
  | '.' :: rest2 =>
      let fp := rest2.takeWhile isDigitChar
      let rest3 := rest2.dropWhile isDigitChar
      if ip = [] ∧ fp = [] then none
      else
        let mant : ℚ := (digitsVal ip : ℚ) + (digitsVal fp : ℚ) / (10 : ℚ) ^ fp.length
        match rest3 with
        | [] => some mant
        | e :: rest4 =>
            if e = 'e' ∨ e = 'E' then (parseExpPart rest4).map (fun ex => mant * ex)
            else none
  | e :: rest2 =>
      if (e = 'e' ∨ e = 'E') ∧ ip ≠ [] then
        (parseExpPart rest2).map (fun ex => (digitsVal ip : ℚ) * ex)
      else none

/-- The Python float constructor on a character list, with an optional
leading sign; returns none where the constructor raises ValueError. -/
def pyParseFloat (l : List Char) : Option ℚ :=
  match l with
  | '+' :: r => parseUnsignedFloat r
  | '-' :: r => (parseUnsignedFloat r).map Neg.neg
  | r => parseUnsignedFloat r

/-- The helper ensure_float of the source: stringify (the input is either
the Python None, rendered None by str, or a string), strip whitespace,
turn commas into periods, map the empty string to zero and fall back to
zero when the float constructor fails. -/
def ensure_float (v : Option String) : ℚ :=
  let s0 : String := match v with | Option.none => "None" | some s => s
  let s := pyReplaceCommaDot (pyStrip s0.data)
  if s = [] then 0
  else
    match pyParseFloat s with
    | some q => q
    | Option.none => 0

/-- The anchored regex of validate_month_format: four digits, a hyphen
and two digits, where the Python dollar anchor also matches just before a
single newline that ends the string, so the shape with one trailing
newline is accepted as well.  Digits are modelled as ASCII decimal
digits; the Python digit class additionally matches non-ASCII Unicode
decimal digits, which this embedding does not model, so statements about
this definition are scoped to ASCII keys. -/
def matchesYM (l : List Char) : Bool :=
  match l with
  | [c0, c1, c2, c3, c4, c5, c6] =>
      isDigitChar c0 && isDigitChar c1 && isDigitChar c2 && isDigitChar c3 &&
      (c4 = '-') && isDigitChar c5 && isDigitChar c6
  | [c0, c1, c2, c3, c4, c5, c6, c7] =>
      isDigitChar c0 && isDigitChar c1 && isDigitChar c2 && isDigitChar c3 &&
      (c4 = '-') && isDigitChar c5 && isDigitChar c6 && (c7 = '\n')
  | _ => false

/-- Python split on the hyphen character. -/
def pySplitDash : List Char → List (List Char)
  | [] => [[]]
  | c :: t =>
      if c = '-' then [] :: pySplitDash t
      else
        match pySplitDash t with
        | [] => [[c]]
        | h :: r => (c :: h) :: r

/-- The Python int constructor on the hyphen-free pieces produced by the
split above: surrounding whitespace is stripped as int does, then a
nonempty run of digits is read.  A minus sign can never reach this parse
because the split consumes every hyphen; the plus sign, underscore
separators and non-ASCII Unicode digits that int also accepts are not
modelled, and no statement below depends on them. -/
def pyIntParse (l : List Char) : Option ℕ :=
  let t := pyStrip l
  if t ≠ [] ∧ t.all isDigitChar then some (digitsVal t) else none

/-- validate_month_format: regex gate, then parse the two pieces as
integers and check the month and year ranges; every failure gives false. -/
def validate_month_format (s : String) : Bool :=
  if matchesYM s.data then
    match (pySplitDash s.data).map pyIntParse with
    | [some year, some month] =>
        decide (1 ≤ month ∧ month ≤ 12 ∧ 1900 ≤ year ∧ year ≤ 2100)
    | _ => false
  else false

/-- Spec-side reading of a valid month key: exactly four digit characters,
a hyphen and two digit characters, whose decimal values lie in the stated
year and month ranges. -/
def IsValidMonthKey (s : String) : Prop :=
  ∃ c0 c1 c2 c3 c5 c6 : Char,
    s.data = [c0, c1, c2, c3, '-', c5, c6] ∧
    isDigitChar c0 = true ∧ isDigitChar c1 = true ∧ isDigitChar c2 = true ∧
    isDigitChar c3 = true ∧ isDigitChar c5 = true ∧ isDigitChar c6 = true ∧
    1 ≤ digitsVal [c5, c6] ∧ digitsVal [c5, c6] ≤ 12 ∧
    1900 ≤ digitsVal [c0, c1, c2, c3] ∧ digitsVal [c0, c1, c2, c3] ≤ 2100

/-- Spec-side reading of the extra keys the source regex accepts through
the dollar anchor: the exact shape above followed by one trailing
newline. -/
def IsValidMonthKeyNL (s : String) : Prop :=
  ∃ c0 c1 c2 c3 c5 c6 : Char,
    s.data = [c0, c1, c2, c3, '-', c5, c6, '\n'] ∧
    isDigitChar c0 = true ∧ isDigitChar c1 = true ∧ isDigitChar c2 = true ∧
    isDigitChar c3 = true ∧ isDigitChar c5 = true ∧ isDigitChar c6 = true ∧
    1 ≤ digitsVal [c5, c6] ∧ digitsVal [c5, c6] ≤ 12 ∧
    1900 ≤ digitsVal [c0, c1, c2, c3] ∧ digitsVal [c0, c1, c2, c3] ≤ 2100

/-- Decimal rendering of a natural number, fuel-indexed so that the
recursion is structural; the fuel is always taken strictly above the
value. -/
def natReprAux : ℕ → ℕ → List Char
  | 0, _ => []
  | fuel + 1, n =>
      if n < 10 then [digitChar n]
      else natReprAux fuel (n / 10) ++ [digitChar (n % 10)]

/-- Decimal rendering of a natural number, models the Python str on a
nonnegative int. -/
def natRepr (n : ℕ) : List Char := natReprAux (n + 1) n

/-- Decimal rendering of an integer, models the Python str on an int. -/
def intRepr (i : ℤ) : List Char :=
  if i < 0 then '-' :: natRepr i.natAbs else natRepr i.toNat

/-- Python format spec 02d on a natural number: pad a single digit with a
leading zero, otherwise plain decimal. -/
def pad2 (n : ℕ) : List Char :=
  if n < 10 then ['0', digitChar n] else natRepr n

/-- Python format spec 02d on an integer: a negative or two-digit value
already fills the width, a single digit gets a leading zero. -/
def pyFmt02 (i : ℤ) : List Char :=
  if i < 0 then intRepr i else pad2 i.toNat

/-- get_previous_month: parse the two hyphen-separated integers, step one
month back rolling the year past January, render with the f-string of the
source (plain year, 02d month); the exception handler of the source turns
any parse failure into the Python None. -/
def get_previous_month (s : String) : Option String :=
  match (pySplitDash s.data).map pyIntParse with
  | [some year, some month] =>
      if month = 1 then
        some (String.mk (intRepr ((year : ℤ) - 1) ++ '-' :: ['1', '2']))
      else
        some (String.mk (natRepr year ++ '-' :: pyFmt02 ((month : ℤ) - 1)))
  | _ => none

/-- The month-key arithmetic of BudgetApp.navigate_month with direction
one: parse the two integers, add one to the month, roll past December
into January of the next year, render as f-string year dash 02d month;
the exception handler of the source reports malformed keys, modelled as
the Python None. -/
def navigate_month_next (s : String) : Option String :=
  match (pySplitDash s.data).map pyIntParse with
  | [some year, some month] =>
      let m1 := month + 1
      if m1 > 12 then some (String.mk (natRepr (year + 1) ++ '-' :: pad2 1))
      else some (String.mk (natRepr year ++ '-' :: pad2 m1))
  | _ => none

/-! Aggregator lemmas. -/

lemma calcAux_income (md : MonthData) : ∀ t : Totals,
    (calculateTotalsAux md t).income
      = t.income + sumWhere (fun c => classifySpec c == CatClass.income) md := by
  induction md with
  | nil => intro t; simp [calculateTotalsAux, sumWhere]
  | cons e rest ih =>
      obtain ⟨⟨category, subcat, item⟩, amount⟩ := e
      intro t
      by_cases h1 : (pyContains category "Einnahmen"
          || pyLowerStarts category "ein") = true
      · simp +decide [calculateTotalsAux, sumWhere, h1, classifySpec, ih]; ring
      · by_cases h2 : (pyContains category "Fix"
            || pyLowerStarts category "fix") = true
        · simp +decide [calculateTotalsAux, sumWhere, h1, h2, classifySpec, ih]
        · by_cases h3 : (pyContains category "Variable"
              || pyLowerStarts category "var") = true
          · simp +decide [calculateTotalsAux, sumWhere, h1, h2, h3, classifySpec, ih]
          · simp +decide [calculateTotalsAux, sumWhere, h1, h2, h3, classifySpec,
              ite_self, ih]

lemma calcAux_fixed (md : MonthData) : ∀ t : Totals,
    (calculateTotalsAux md t).fixed
      = t.fixed + sumWhere (fun c => classifySpec c == CatClass.fixedCost) md := by
  induction md with
  | nil => intro t; simp [calculateTotalsAux, sumWhere]
  | cons e rest ih =>
      obtain ⟨⟨category, subcat, item⟩, amount⟩ := e
      intro t
      by_cases h1 : (pyContains category "Einnahmen"
          || pyLowerStarts category "ein") = true
      · simp +decide [calculateTotalsAux, sumWhere, h1, classifySpec, ih]
      · by_cases h2 : (pyContains category "Fix"
            || pyLowerStarts category "fix") = true
        · simp +decide [calculateTotalsAux, sumWhere, h1, h2, classifySpec, ih]; ring
        · by_cases h3 : (pyContains category "Variable"
              || pyLowerStarts category "var") = true
          · simp +decide [calculateTotalsAux, sumWhere, h1, h2, h3, classifySpec, ih]
          · simp +decide [calculateTotalsAux, sumWhere, h1, h2, h3, classifySpec,
              ite_self, ih]

lemma calcAux_var (md : MonthData) : ∀ t : Totals,
    (calculateTotalsAux md t).var
      = t.var + sumWhere (fun c => classifySpec c == CatClass.variableCost) md := by
  induction md with
  | nil => intro t; simp [calculateTotalsAux, sumWhere]
  | cons e rest ih =>
      obtain ⟨⟨category, subcat, item⟩, amount⟩ := e
      intro t
      by_cases h1 : (pyContains category "Einnahmen"
          || pyLowerStarts category "ein") = true
      · simp +decide [calculateTotalsAux, sumWhere, h1, classifySpec, ih]
      · by_cases h2 : (pyContains category "Fix"
            || pyLowerStarts category "fix") = true
        · simp +decide [calculateTotalsAux, sumWhere, h1, h2, classifySpec, ih]
        · by_cases h3 : (pyContains category "Variable"
              || pyLowerStarts category "var") = true
          · simp +decide [calculateTotalsAux, sumWhere, h1, h2, h3, classifySpec, ih]
            ring
          · simp +decide [calculateTotalsAux, sumWhere, h1, h2, h3, classifySpec,
              ite_self, ih]
            ring

lemma calcAux_expenses (md : MonthData) : ∀ t : Totals,
    (calculateTotalsAux md t).expenses
      = t.expenses + sumWhere (fun c => !(classifySpec c == CatClass.income)) md := by
  induction md with
  | nil => intro t; simp [calculateTotalsAux, sumWhere]
  | cons e rest ih =>
      obtain ⟨⟨category, subcat, item⟩, amount⟩ := e
      intro t
      by_cases h1 : (pyContains category "Einnahmen"
          || pyLowerStarts category "ein") = true
      · simp +decide [calculateTotalsAux, sumWhere, h1, classifySpec, ih]
      · by_cases h2 : (pyContains category "Fix"
            || pyLowerStarts category "fix") = true
        · simp +decide [calculateTotalsAux, sumWhere, h1, h2, classifySpec, ih]; ring
        · by_cases h3 : (pyContains category "Variable"
              || pyLowerStarts category "var") = true
          · simp +decide [calculateTotalsAux, sumWhere, h1, h2, h3, classifySpec, ih]
            ring
          · simp +decide [calculateTotalsAux, sumWhere, h1, h2, h3, classifySpec,
              ite_self, ih]
            ring

lemma calcAux_balance (md : MonthData) : ∀ t : Totals,
    (calculateTotalsAux md t).balance = t.balance := by
  induction md with
  | nil => intro t; simp [calculateTotalsAux]
  | cons e rest ih =>
      obtain ⟨⟨category, subcat, item⟩, amount⟩ := e
      intro t
      by_cases h1 : (pyContains category "Einnahmen"
          || pyLowerStarts category "ein") = true
      · simp [calculateTotalsAux, h1, ih]
      · by_cases h2 : (pyContains category "Fix"
            || pyLowerStarts category "fix") = true
        · simp [calculateTotalsAux, h1, h2, ih]
        · by_cases h3 : (pyContains category "Variable"
              || pyLowerStarts category "var") = true
          · simp [calculateTotalsAux, h1, h2, h3, ih]
          · simp [calculateTotalsAux, h1, h2, h3, ite_self, ih]

lemma sumWhere_classify_split (md : MonthData) :
    sumWhere (fun c => !(classifySpec c == CatClass.income)) md
      = sumWhere (fun c => classifySpec c == CatClass.fixedCost) md
        + sumWhere (fun c => classifySpec c == CatClass.variableCost) md := by
  induction md with
  | nil => simp [sumWhere]
  | cons e rest ih =>
      obtain ⟨⟨category, subcat, item⟩, amount⟩ := e
      cases hc : classifySpec category <;> simp +decide [sumWhere, hc, ih] <;> ring

/-- Claim C1: category classification is a total, pure function of the
main-category name applied in fixed priority order — a name containing
Einnahmen or whose lowercase form starts with ein counts as Income,
otherwise Fix or a fix lowercase start counts as Fixed, otherwise
Variable or a var lowercase start counts as Variable, and every other
name (the exact name Sparen included) is treated as an expense whose
amount is folded into the Variable subtotal: the totals of
calculate_totals decompose as the sums over the buckets classifySpec
assigns by exactly that rule. -/
theorem claim_C1_classification (md : MonthData) :
    (calculate_totals md).income
      = sumWhere (fun c => classifySpec c == CatClass.income) md ∧
    (calculate_totals md).fixed
      = sumWhere (fun c => classifySpec c == CatClass.fixedCost) md ∧
    (calculate_totals md).var
      = sumWhere (fun c => classifySpec c == CatClass.variableCost) md ∧
    (calculate_totals md).expenses
      = sumWhere (fun c => !(classifySpec c == CatClass.income)) md := by
  refine ⟨?_, ?_, ?_, ?_⟩ <;>
    simp [calculate_totals, calcAux_income, calcAux_fixed, calcAux_var,
      calcAux_expenses]

/-- Claim C2: for every set of entries, with any amounts including
negative ones, the balance output equals total income minus total
expenses exactly, with no clamping, and in particular the balance can be
negative, as on a month holding a single expense of one hundred. -/
theorem claim_C2_balance :
    (∀ md : MonthData, (calculate_totals md).balance
        = (calculate_totals md).income - (calculate_totals md).expenses) ∧
    (calculate_totals [(("Fixkosten", "Wohnen", "Miete"), 100)]).balance = -100 := by
  constructor
  · intro md
    simp [calculate_totals]
  · simp +decide [calculate_totals, calculateTotalsAux, addToCat]

/-- Claim C10: the two expense decompositions always agree — every
transaction not classified as income is added both to the expenses total
and to exactly one of the fixed or variable subtotals, so for every month
the expenses total equals the fixed subtotal plus the variable subtotal. -/
theorem claim_C10_expense_decomposition (md : MonthData) :
    (calculate_totals md).expenses
      = (calculate_totals md).fixed + (calculate_totals md).var := by
  simp [calculate_totals, calcAux_fixed, calcAux_var, calcAux_expenses,
    sumWhere_classify_split]

/-- Claim C4, counterexample: the claim asks the savings rate to be zero
for every non-positive income, but calculate_savings_rate takes its zero
branch only at income exactly zero; at income minus one hundred and
expenses zero it returns one hundred, not zero. -/
theorem claim_C4_counterexample :
    calculate_savings_rate (-100) 0 = 100 ∧
      ¬ calculate_savings_rate (-100) 0 = 0 := by
  norm_num [calculate_savings_rate]

/-- Claim C4, amended: the savings rate equals
(income - expenses) / income * 100 for every nonzero income, including
negative income, and equals zero exactly when the income is zero; only
the in-app saving rate of recalculate_all returns zero for every
non-positive income. -/
theorem claim_C4_savings_rate (income expenses balance : ℚ) :
    (income ≠ 0 →
      calculate_savings_rate income expenses = ((income - expenses) / income) * 100) ∧
    calculate_savings_rate 0 expenses = 0 ∧
    (0 < income → app_saving_rate income balance = balance / income * 100) ∧
    (income ≤ 0 → app_saving_rate income balance = 0) := by
  refine ⟨fun h => ?_, ?_, fun h => ?_, fun h => ?_⟩
  · simp [calculate_savings_rate, h]
  · simp [calculate_savings_rate]
  · simp [app_saving_rate, h]
  · simp [app_saving_rate, not_lt.mpr h]

/-- Witness for the amended claim C4 at concrete inputs. -/
theorem claim_C4_witness :
    ((200 : ℚ) ≠ 0 ∧ calculate_savings_rate 200 50 = ((200 - 50) / 200) * 100) ∧
    ((-3 : ℚ) ≤ 0 ∧ app_saving_rate (-3) 7 = 0) := by
  refine ⟨⟨by norm_num, (claim_C4_savings_rate 200 50 0).1 (by norm_num)⟩,
    ⟨by norm_num, (claim_C4_savings_rate (-3) 0 7).2.2.2 (by norm_num)⟩⟩

/-- Claim C6: the breach flag of check_budget_limit is true exactly when
the limit is strictly positive and the amount strictly exceeds it; when
the amount equals the limit the flag is false, and for a non-positive
limit the result is the flag false with percentage zero. -/
theorem claim_C6_budget_breach (amount limit : ℚ) :
    ((check_budget_limit amount limit).1 = true ↔ 0 < limit ∧ limit < amount) ∧
    (amount = limit → (check_budget_limit amount limit).1 = false) ∧
    (limit ≤ 0 → check_budget_limit amount limit = (false, 0)) := by
  by_cases hl : limit ≤ 0
  · refine ⟨?_, fun _ => ?_, fun _ => ?_⟩ <;>
      simp [check_budget_limit, hl]
  · have hl2 : 0 < limit := lt_of_not_le hl
    refine ⟨?_, fun he => ?_, fun h0 => absurd h0 hl⟩
    · simp [check_budget_limit, hl, hl2]
    · subst he
      simp [check_budget_limit, hl]

/-- Witness for claim C6 at concrete inputs. -/
theorem claim_C6_witness :
    (check_budget_limit 5 4).1 = true ∧
    (check_budget_limit 3 3).1 = false ∧
    check_budget_limit 2 0 = (false, 0) := by
  refine ⟨(claim_C6_budget_breach 5 4).1.mpr ⟨by norm_num, by norm_num⟩,
    (claim_C6_budget_breach 3 3).2.1 rfl,
    (claim_C6_budget_breach 2 0).2.2 (by norm_num)⟩

/-- Claim C7: for every series of fewer than two points and every
horizon, the forecaster returns the horizon-length list of copies of the
last element of the series, or of zero when the series is empty,
together with slope zero and intercept zero. -/
theorem claim_C7_forecast_degenerate (hist : List ℚ) (periods : Nat)
    (h : hist.length < 2) :
    forecast_trend hist periods
      = (List.replicate periods ((hist.getLast?).getD 0), 0, 0) := by
  simp [forecast_trend, h]

/-- Witness for claim C7 on a one-point series. -/
theorem claim_C7_witness :
    ([(7 : ℚ)].length < 2) ∧ forecast_trend [(7 : ℚ)] 3 = ([7, 7, 7], 0, 0) := by
  refine ⟨by norm_num, ?_⟩
  have h := claim_C7_forecast_degenerate [(7 : ℚ)] 3 (by norm_num)
  simpa [List.replicate] using h

/-! Top-expenses lemmas. -/

lemma mem_insDesc {x y : String × ℚ} : ∀ {l : List (String × ℚ)},
    y ∈ insDesc x l ↔ y = x ∨ y ∈ l := by
  intro l
  induction l with
  | nil => simp [insDesc]
  | cons z t ih =>
      by_cases h : x.2 ≥ z.2
      · simp [insDesc, h]
      · simp [insDesc, h, ih]
        tauto

lemma mem_sortDesc {y : String × ℚ} : ∀ {l : List (String × ℚ)},
    y ∈ sortDesc l ↔ y ∈ l := by
  intro l
  induction l with
  | nil => simp [sortDesc]
  | cons z t ih => simp [sortDesc, mem_insDesc, ih]

lemma addToCat_keys {c k : String} {a : ℚ} :
    ∀ {cats : List (String × ℚ)},
      (∃ v, (k, v) ∈ addToCat cats c a) → k = c ∨ ∃ v, (k, v) ∈ cats := by
  intro cats
  induction cats with
  | nil =>
      rintro ⟨v, hv⟩
      simp [addToCat] at hv
      exact Or.inl hv.1
  | cons p t ih =>
      obtain ⟨pk, pv⟩ := p
      rintro ⟨v, hv⟩
      by_cases hk : pk = c
      · simp [addToCat, hk] at hv
        rcases hv with ⟨h1, h2⟩ | h1
        · exact Or.inl h1
        · exact Or.inr ⟨v, by simp [h1]⟩
      · simp [addToCat, hk] at hv
        rcases hv with ⟨h1, h2⟩ | h1
        · exact Or.inr ⟨pv, by simp [h1]⟩
        · rcases ih ⟨v, h1⟩ with h2 | ⟨v2, h2⟩
          · exact Or.inl h2
          · exact Or.inr ⟨v2, by simp [h2]⟩

lemma getTopAux_keys (md : MonthData) : ∀ (acc : List (String × ℚ)) (lbl : String),
    (∃ v, (lbl, v) ∈ getTopAux md acc) →
      (∃ v, (lbl, v) ∈ acc) ∨
        ∃ mc sc it a, ((mc, sc, it), a) ∈ md ∧
          pyContains mc "Einnahmen" = false ∧ lbl = mc ++ " / " ++ sc := by
  induction md with
  | nil => intro acc lbl h; left; simpa [getTopAux] using h
  | cons e rest ih =>
      obtain ⟨⟨mc, sc, it⟩, a⟩ := e
      intro acc lbl h
      by_cases hic : pyContains mc "Einnahmen" = true
      · rw [getTopAux, if_pos hic] at h
        rcases ih acc lbl h with h2 | ⟨mc2, sc2, it2, a2, hmem, hni, hlbl⟩
        · exact Or.inl h2
        · exact Or.inr ⟨mc2, sc2, it2, a2, by simp [hmem], hni, hlbl⟩
      · rw [getTopAux, if_neg hic] at h
        rcases ih _ lbl h with h2 | ⟨mc2, sc2, it2, a2, hmem, hni, hlbl⟩
        · rcases addToCat_keys h2 with h3 | h3
          · exact Or.inr ⟨mc, sc, it, a, by simp,
              Bool.not_eq_true _ ▸ hic, h3⟩
          · exact Or.inl h3
        · exact Or.inr ⟨mc2, sc2, it2, a2, by simp [hmem], hni, hlbl⟩

/-- Claim C3, counterexample: the claim promises that no returned group
has a main category whose lowercase form starts with ein, yet
get_top_expenses only filters on the substring Einnahmen, so the
category einkommen, which classifies as Income in calculate_totals,
still shows up in the returned list. -/
theorem claim_C3_counterexample :
    pyLowerStarts "einkommen" "ein" = true ∧
    ("einkommen / Sonst", (50 : ℚ)) ∈
      get_top_expenses [(("einkommen", "Sonst", "Lohn"), 50)] 3 := by
  constructor
  · decide
  · simp [get_top_expenses, getTopAux, addToCat, sortDesc, insDesc]

/-- Claim C3, amended: every group returned by get_top_expenses comes
from an entry whose main category does not contain the substring
Einnahmen, and its label is that main category, a spaced slash, and the
subcategory; the further exclusion of categories whose lowercase form
starts with ein does not hold for this function. -/
theorem claim_C3_top_expenses (md : MonthData) (n : Nat) (lbl : String) (amt : ℚ)
    (h : (lbl, amt) ∈ get_top_expenses md n) :
    ∃ mc sc it a, ((mc, sc, it), a) ∈ md ∧
      pyContains mc "Einnahmen" = false ∧ lbl = mc ++ " / " ++ sc := by
  have h1 : (lbl, amt) ∈ sortDesc (getTopAux md []) :=
    List.mem_of_mem_take h
  have h2 : (lbl, amt) ∈ getTopAux md [] := mem_sortDesc.mp h1
  rcases getTopAux_keys md [] lbl ⟨amt, h2⟩ with h4 | h4
  · simp at h4
  · exact h4

/-- Witness for the amended claim C3 at a concrete month. -/
theorem claim_C3_witness :
    ("Fixkosten / Wohnen", (100 : ℚ)) ∈
        get_top_expenses [(("Fixkosten", "Wohnen", "Miete"), 100)] 3 ∧
    (∃ mc sc it a,
        ((mc, sc, it), a) ∈ ([(("Fixkosten", "Wohnen", "Miete"), 100)] : MonthData) ∧
        pyContains mc "Einnahmen" = false ∧
        "Fixkosten / Wohnen" = mc ++ " / " ++ sc) := by
  have hmem : ("Fixkosten / Wohnen", (100 : ℚ)) ∈
      get_top_expenses [(("Fixkosten", "Wohnen", "Miete"), 100)] 3 := by
    simp [get_top_expenses, getTopAux, addToCat, sortDesc, insDesc]
  exact ⟨hmem, claim_C3_top_expenses _ 3 _ 100 hmem⟩

/-- Claim C5: ensure_float stringifies, strips surrounding whitespace,
turns the comma into a period, sends the empty string and every
unparseable value to zero and never fails; on the quoted inputs it gives
123.45, 0, 0 and 0, and a stripped leading blank never changes the
result. -/
theorem claim_C5_ensure_float :
    ensure_float (some "123,45") = 123.45 ∧
    ensure_float (some "") = 0 ∧
    ensure_float (some "abc") = 0 ∧
    ensure_float Option.none = 0 ∧
    (∀ s : String, ensure_float (some (" " ++ s)) = ensure_float (some s)) := by
  refine ⟨?_, by decide, by decide, by decide, ?_⟩
  · simp +decide [ensure_float, pyReplaceCommaDot, pyStrip, pyWhitespace,
      pyParseFloat, parseUnsignedFloat, parseExpPart, parseExpDigits,
      isDigitChar, digitsVal, List.takeWhile, List.dropWhile, List.foldl]
    norm_num
  · intro s
    simp +decide [ensure_float, pyStrip, String.data_append, List.dropWhile_cons]

/-! Month-key lemmas. -/

lemma digit_ne_dash {c : Char} (h : isDigitChar c = true) : ¬ c = '-' := by
  intro hc
  subst hc
  exact absurd h (by decide)

lemma digit_not_ws {c : Char} (h : isDigitChar c = true) :
    pyWhitespace c = false := by
  have hb : 48 ≤ c.toNat ∧ c.toNat ≤ 57 := by simpa [isDigitChar] using h
  have h32 : ¬ c = ' ' := fun hc => by subst hc; revert hb; decide
  have h09 : ¬ c = '\t' := fun hc => by subst hc; revert hb; decide
  have h10 : ¬ c = '\n' := fun hc => by subst hc; revert hb; decide
  have h13 : ¬ c = '\x0d' := fun hc => by subst hc; revert hb; decide
  have h11 : ¬ c = '\x0b' := fun hc => by subst hc; revert hb; decide
  have h12 : ¬ c = '\x0c' := fun hc => by subst hc; revert hb; decide
  simp [pyWhitespace, h32, h09, h10, h13, h11, h12]

lemma dropWhile_ws_eq_self {l : List Char}
    (h : ∀ c ∈ l, pyWhitespace c = false) :
    l.dropWhile pyWhitespace = l := by
  cases l with
  | nil => rfl
  | cons c t => simp [List.dropWhile_cons, h c (by simp)]

lemma pyStrip_eq_self {l : List Char}
    (h : ∀ c ∈ l, pyWhitespace c = false) : pyStrip l = l := by
  rw [pyStrip, dropWhile_ws_eq_self h,
    dropWhile_ws_eq_self (fun c hc => h c (List.mem_reverse.mp hc)),
    List.reverse_reverse]

lemma pyIntParse_all {l : List Char} (h1 : l ≠ []) (h2 : l.all isDigitChar = true) :
    pyIntParse l = some (digitsVal l) := by
  have hs : pyStrip l = l :=
    pyStrip_eq_self (fun c hc => digit_not_ws (List.all_eq_true.mp h2 c hc))
  simp [pyIntParse, hs, h1, h2]

lemma pySplitDash_no_dash : ∀ {l : List Char}, (∀ c ∈ l, ¬ c = '-') →
    pySplitDash l = [l] := by
  intro l
  induction l with
  | nil => intro _; rfl
  | cons c t ih =>
      intro ha
      have hc : ¬ c = '-' := ha c (by simp)
      have ht : ∀ x ∈ t, ¬ x = '-' := fun x hx => ha x (by simp [hx])
      simp only [pySplitDash, if_neg hc, ih ht]

lemma pySplitDash_append {a : List Char} (b : List Char)
    (ha : ∀ c ∈ a, ¬ c = '-') :
    pySplitDash (a ++ '-' :: b) = a :: pySplitDash b := by
  induction a with
  | nil => simp [pySplitDash]
  | cons c t ih =>
      have hc : ¬ c = '-' := ha c (by simp)
      have ht : ∀ x ∈ t, ¬ x = '-' := fun x hx => ha x (by simp [hx])
      simp only [List.cons_append, pySplitDash, if_neg hc, List.append_eq, ih ht]

lemma matchesYM_shape : ∀ {l : List Char}, matchesYM l = true →
    ∃ c0 c1 c2 c3 c5 c6 : Char,
      (l = [c0, c1, c2, c3, '-', c5, c6] ∨
        l = [c0, c1, c2, c3, '-', c5, c6, '\n']) ∧
      isDigitChar c0 = true ∧ isDigitChar c1 = true ∧ isDigitChar c2 = true ∧
      isDigitChar c3 = true ∧ isDigitChar c5 = true ∧ isDigitChar c6 = true := by
  intro l h
  unfold matchesYM at h
  split at h
  case h_1 c0 c1 c2 c3 c4 c5 c6 =>
      simp only [Bool.and_eq_true, decide_eq_true_eq] at h
      obtain ⟨⟨⟨⟨⟨⟨h0, h1⟩, h2⟩, h3⟩, h4⟩, h5⟩, h6⟩ := h
      exact ⟨c0, c1, c2, c3, c5, c6, Or.inl (by rw [h4]), h0, h1, h2, h3, h5, h6⟩
  case h_2 c0 c1 c2 c3 c4 c5 c6 c7 =>
      simp only [Bool.and_eq_true, decide_eq_true_eq] at h
      obtain ⟨⟨⟨⟨⟨⟨⟨h0, h1⟩, h2⟩, h3⟩, h4⟩, h5⟩, h6⟩, h7⟩ := h
      exact ⟨c0, c1, c2, c3, c5, c6, Or.inr (by rw [h4, h7]), h0, h1, h2, h3, h5, h6⟩
  case h_3 => exact absurd h (by simp)

lemma validate_month_format_chars {s : String} {c0 c1 c2 c3 c5 c6 : Char}
    (hdata : s.data = [c0, c1, c2, c3, '-', c5, c6])
    (h0 : isDigitChar c0 = true) (h1 : isDigitChar c1 = true)
    (h2 : isDigitChar c2 = true) (h3 : isDigitChar c3 = true)
    (h5 : isDigitChar c5 = true) (h6 : isDigitChar c6 = true) :
    validate_month_format s
      = decide (1 ≤ digitsVal [c5, c6] ∧ digitsVal [c5, c6] ≤ 12 ∧
          1900 ≤ digitsVal [c0, c1, c2, c3] ∧ digitsVal [c0, c1, c2, c3] ≤ 2100) := by
  have hm : matchesYM [c0, c1, c2, c3, '-', c5, c6] = true := by
    simp [matchesYM, h0, h1, h2, h3, h5, h6]
  have hsplit : pySplitDash [c0, c1, c2, c3, '-', c5, c6]
      = [[c0, c1, c2, c3], [c5, c6]] := by
    simp [pySplitDash, digit_ne_dash h0, digit_ne_dash h1, digit_ne_dash h2,
      digit_ne_dash h3, digit_ne_dash h5, digit_ne_dash h6]
  have hp1 : pyIntParse [c0, c1, c2, c3] = some (digitsVal [c0, c1, c2, c3]) :=
    pyIntParse_all (by simp) (by simp [h0, h1, h2, h3])
  have hp2 : pyIntParse [c5, c6] = some (digitsVal [c5, c6]) :=
    pyIntParse_all (by simp) (by simp [h5, h6])
  unfold validate_month_format
  rw [hdata, if_pos hm, hsplit]
  simp [hp1, hp2]

lemma validate_month_format_chars_nl {s : String} {c0 c1 c2 c3 c5 c6 : Char}
    (hdata : s.data = [c0, c1, c2, c3, '-', c5, c6, '\n'])
    (h0 : isDigitChar c0 = true) (h1 : isDigitChar c1 = true)
    (h2 : isDigitChar c2 = true) (h3 : isDigitChar c3 = true)
    (h5 : isDigitChar c5 = true) (h6 : isDigitChar c6 = true) :
    validate_month_format s
      = decide (1 ≤ digitsVal [c5, c6] ∧ digitsVal [c5, c6] ≤ 12 ∧
          1900 ≤ digitsVal [c0, c1, c2, c3] ∧ digitsVal [c0, c1, c2, c3] ≤ 2100) := by
  have hm : matchesYM [c0, c1, c2, c3, '-', c5, c6, '\n'] = true := by
    simp [matchesYM, h0, h1, h2, h3, h5, h6]
  have hsplit : pySplitDash [c0, c1, c2, c3, '-', c5, c6, '\n']
      = [[c0, c1, c2, c3], [c5, c6, '\n']] := by
    simp [pySplitDash, digit_ne_dash h0, digit_ne_dash h1, digit_ne_dash h2,
      digit_ne_dash h3, digit_ne_dash h5, digit_ne_dash h6]
  have hp1 : pyIntParse [c0, c1, c2, c3] = some (digitsVal [c0, c1, c2, c3]) :=
    pyIntParse_all (by simp) (by simp [h0, h1, h2, h3])
  have hp2 : pyIntParse [c5, c6, '\n'] = some (digitsVal [c5, c6]) := by
    have hs : pyStrip [c5, c6, '\n'] = [c5, c6] := by
      simp +decide [pyStrip, List.dropWhile_cons, digit_not_ws h5, digit_not_ws h6]
    rw [pyIntParse]
    simp [hs, h5, h6]
  unfold validate_month_format
  rw [hdata, if_pos hm, hsplit]
  simp [hp1, hp2]

/-- Claim C8, counterexample: the claim promises false on every key that
is not exactly four digits, a hyphen and two digits, yet the source
regex dollar anchor also matches just before one trailing newline and
int strips the whitespace, so validation returns true on the key 2025-01
followed by a newline, whose shape is not the claimed one. -/
theorem claim_C8_counterexample :
    validate_month_format "2025-01\n" = true ∧ ¬ IsValidMonthKey "2025-01\n" := by
  refine ⟨by decide, ?_⟩
  rintro ⟨c0, c1, c2, c3, c5, c6, hdata, -⟩
  have hlen : ("2025-01\n".data).length = 8 := rfl
  rw [hdata] at hlen
  simp at hlen

/-- Claim C8, amended: on ASCII keys, month-key validation accepts
exactly the strings of shape four digits, a hyphen and two digits,
optionally followed by one trailing newline, whose month value lies
between one and twelve and whose year value lies between 1900 and 2100;
digits are ASCII digits here because the embedding does not model the
non-ASCII Unicode decimal digits that the source regex and int also
accept, so the characterization is scoped to ASCII keys.  On the three
quoted keys validation gives true, false and false, and on the key
2025-01 with a trailing newline it gives true. -/
theorem claim_C8_validate_month :
    (∀ s : String, (∀ c ∈ s.data, c.toNat < 128) →
      (validate_month_format s = true ↔ IsValidMonthKey s ∨ IsValidMonthKeyNL s)) ∧
    validate_month_format "2025-01" = true ∧
    validate_month_format "2025-13" = false ∧
    validate_month_format "2025-00" = false ∧
    validate_month_format "2025-01\n" = true := by
  refine ⟨fun s _ => ⟨fun h => ?_, fun h => ?_⟩,
    by decide, by decide, by decide, by decide⟩
  · have hm : matchesYM s.data = true := by
      by_contra hc
      rw [validate_month_format, if_neg hc] at h
      exact absurd h (by simp)
    obtain ⟨c0, c1, c2, c3, c5, c6, hdata, h0, h1, h2, h3, h5, h6⟩ :=
      matchesYM_shape hm
    rcases hdata with hdata | hdata
    · rw [validate_month_format_chars hdata h0 h1 h2 h3 h5 h6] at h
      exact Or.inl ⟨c0, c1, c2, c3, c5, c6, hdata, h0, h1, h2, h3, h5, h6,
        of_decide_eq_true h⟩
    · rw [validate_month_format_chars_nl hdata h0 h1 h2 h3 h5 h6] at h
      exact Or.inr ⟨c0, c1, c2, c3, c5, c6, hdata, h0, h1, h2, h3, h5, h6,
        of_decide_eq_true h⟩
  · rcases h with ⟨c0, c1, c2, c3, c5, c6, hdata, h0, h1, h2, h3, h5, h6,
        hm1, hm2, hy1, hy2⟩ |
      ⟨c0, c1, c2, c3, c5, c6, hdata, h0, h1, h2, h3, h5, h6, hm1, hm2, hy1, hy2⟩
    · rw [validate_month_format_chars hdata h0 h1 h2 h3 h5 h6]
      exact decide_eq_true ⟨hm1, hm2, hy1, hy2⟩
    · rw [validate_month_format_chars_nl hdata h0 h1 h2 h3 h5 h6]
      exact decide_eq_true ⟨hm1, hm2, hy1, hy2⟩

/-- Witness for the amended claim C8: the validity of a concrete ASCII
key established through the characterization. -/
theorem claim_C8_witness :
    (∀ c ∈ ("1987-07" : String).data, c.toNat < 128) ∧
    validate_month_format "1987-07" = true := by
  refine ⟨by decide, (claim_C8_validate_month.1 "1987-07" (by decide)).mpr
    (Or.inl ⟨'1', '9', '8', '7', '0', '7',
      ?_, ?_, ?_, ?_, ?_, ?_, ?_, ?_, ?_, ?_, ?_⟩)⟩ <;> decide

/-! Decimal rendering lemmas. -/

lemma digitChar_toNat {n : ℕ} (h : n < 10) : (digitChar n).toNat = 48 + n := by
  interval_cases n <;> decide

lemma digitChar_isDigit {n : ℕ} (h : n < 10) : isDigitChar (digitChar n) = true := by
  interval_cases n <;> decide

lemma digitChar_of_digit {c : Char} (h : isDigitChar c = true) :
    digitChar (c.toNat - 48) = c := by
  have hb : 48 ≤ c.toNat ∧ c.toNat ≤ 57 := by simpa [isDigitChar] using h
  have h10 : c.toNat - 48 < 10 := by omega
  have he : (digitChar (c.toNat - 48)).toNat = c.toNat := by
    rw [digitChar_toNat h10]; omega
  exact Char.ext (UInt32.ext he)

lemma natReprAux_congr : ∀ (n f1 f2 : ℕ), n < f1 → n < f2 →
    natReprAux f1 n = natReprAux f2 n := by
  intro n
  induction n using Nat.strong_induction_on with
  | _ n ih =>
      intro f1 f2 hf1 hf2
      match f1, f2 with
      | fa + 1, fb + 1 =>
          by_cases h : n < 10
          · simp [natReprAux, h]
          · simp only [natReprAux, if_neg h]
            have hrec := ih (n / 10) (by omega) fa fb (by omega) (by omega)
            rw [hrec]

lemma natRepr_small {n : ℕ} (h : n < 10) : natRepr n = [digitChar n] := by
  simp [natRepr, natReprAux, h]

lemma natRepr_step {n : ℕ} (h : 10 ≤ n) :
    natRepr n = natRepr (n / 10) ++ [digitChar (n % 10)] := by
  show natReprAux (n + 1) n = _
  rw [natReprAux, if_neg (by omega)]
  rw [natReprAux_congr (n / 10) n (n / 10 + 1) (by omega) (by omega)]
  rfl

lemma natRepr_digits : ∀ n : ℕ, ∀ c ∈ natRepr n, isDigitChar c = true := by
  intro n
  induction n using Nat.strong_induction_on with
  | _ n ih =>
      intro c hc
      by_cases h : n < 10
      · rw [natRepr_small h] at hc
        simp at hc
        rw [hc]
        exact digitChar_isDigit h
      · rw [natRepr_step (by omega)] at hc
        rcases List.mem_append.mp hc with h2 | h2
        · exact ih (n / 10) (by omega) c h2
        · simp at h2
          rw [h2]
          exact digitChar_isDigit (by omega)

lemma natRepr_ne_nil (n : ℕ) : natRepr n ≠ [] := by
  by_cases h : n < 10
  · rw [natRepr_small h]; simp
  · rw [natRepr_step (by omega)]; simp

lemma natRepr_no_dash (n : ℕ) : ∀ c ∈ natRepr n, ¬ c = '-' :=
  fun c hc => digit_ne_dash (natRepr_digits n c hc)

lemma digitsVal_append_one (l : List Char) (c : Char) :
    digitsVal (l ++ [c]) = digitsVal l * 10 + (c.toNat - 48) := by
  simp [digitsVal, List.foldl_append]

lemma digitsVal_natRepr : ∀ n : ℕ, digitsVal (natRepr n) = n := by
  intro n
  induction n using Nat.strong_induction_on with
  | _ n ih =>
      by_cases h : n < 10
      · rw [natRepr_small h]
        simp [digitsVal, digitChar_toNat h]
      · rw [natRepr_step (by omega), digitsVal_append_one,
          ih (n / 10) (by omega), digitChar_toNat (by omega : n % 10 < 10)]
        omega

lemma pyIntParse_natRepr (n : ℕ) : pyIntParse (natRepr n) = some n := by
  rw [pyIntParse_all (natRepr_ne_nil n)
    (List.all_eq_true.mpr (fun c hc => natRepr_digits n c hc))]
  rw [digitsVal_natRepr]

lemma pad2_digits (n : ℕ) : ∀ c ∈ pad2 n, isDigitChar c = true := by
  intro c hc
  by_cases h : n < 10
  · rw [pad2, if_pos h] at hc
    rcases List.mem_cons.mp hc with h2 | h2
    · rw [h2]; decide
    · simp at h2; rw [h2]; exact digitChar_isDigit h
  · rw [pad2, if_neg h] at hc
    exact natRepr_digits n c hc

lemma pad2_ne_nil (n : ℕ) : pad2 n ≠ [] := by
  by_cases h : n < 10
  · rw [pad2, if_pos h]; simp
  · rw [pad2, if_neg h]; exact natRepr_ne_nil n

lemma pad2_no_dash (n : ℕ) : ∀ c ∈ pad2 n, ¬ c = '-' :=
  fun c hc => digit_ne_dash (pad2_digits n c hc)

lemma digitsVal_pad2 (n : ℕ) : digitsVal (pad2 n) = n := by
  by_cases h : n < 10
  · rw [pad2, if_pos h]
    simp [digitsVal, digitChar_toNat h]
  · rw [pad2, if_neg h]
    exact digitsVal_natRepr n

lemma pyIntParse_pad2 (n : ℕ) : pyIntParse (pad2 n) = some n := by
  rw [pyIntParse_all (pad2_ne_nil n)
    (List.all_eq_true.mpr (fun c hc => pad2_digits n c hc))]
  rw [digitsVal_pad2]

lemma natRepr_four {n : ℕ} (h1 : 1000 ≤ n) (h2 : n ≤ 9999) :
    natRepr n = [digitChar (n / 1000), digitChar (n / 100 % 10),
      digitChar (n / 10 % 10), digitChar (n % 10)] := by
  rw [natRepr_step (by omega),
    natRepr_step (show 10 ≤ n / 10 by omega),
    natRepr_step (show 10 ≤ n / 10 / 10 by omega),
    natRepr_small (show n / 10 / 10 / 10 < 10 by omega)]
  have e1 : n / 10 / 10 / 10 = n / 1000 := by omega
  have e2 : n / 10 / 10 % 10 = n / 100 % 10 := by omega
  rw [e1, e2]
  rfl

lemma natRepr_of_digits4 {c0 c1 c2 c3 : Char}
    (h0 : isDigitChar c0 = true) (h1 : isDigitChar c1 = true)
    (h2 : isDigitChar c2 = true) (h3 : isDigitChar c3 = true)
    (hval : 1000 ≤ digitsVal [c0, c1, c2, c3]) :
    natRepr (digitsVal [c0, c1, c2, c3]) = [c0, c1, c2, c3] := by
  have hb0 : 48 ≤ c0.toNat ∧ c0.toNat ≤ 57 := by simpa [isDigitChar] using h0
  have hb1 : 48 ≤ c1.toNat ∧ c1.toNat ≤ 57 := by simpa [isDigitChar] using h1
  have hb2 : 48 ≤ c2.toNat ∧ c2.toNat ≤ 57 := by simpa [isDigitChar] using h2
  have hb3 : 48 ≤ c3.toNat ∧ c3.toNat ≤ 57 := by simpa [isDigitChar] using h3
  have hy : digitsVal [c0, c1, c2, c3]
      = ((c0.toNat - 48) * 10 + (c1.toNat - 48)) * 100
        + ((c2.toNat - 48) * 10 + (c3.toNat - 48)) := by
    simp [digitsVal, List.foldl]
    ring
  rw [natRepr_four hval (by omega)]
  have e0 : digitsVal [c0, c1, c2, c3] / 1000 = c0.toNat - 48 := by omega
  have e1 : digitsVal [c0, c1, c2, c3] / 100 % 10 = c1.toNat - 48 := by omega
  have e2 : digitsVal [c0, c1, c2, c3] / 10 % 10 = c2.toNat - 48 := by omega
  have e3 : digitsVal [c0, c1, c2, c3] % 10 = c3.toNat - 48 := by omega
  rw [e0, e1, e2, e3, digitChar_of_digit h0, digitChar_of_digit h1,
    digitChar_of_digit h2, digitChar_of_digit h3]

lemma pad2_of_digits2 {c5 c6 : Char}
    (h5 : isDigitChar c5 = true) (h6 : isDigitChar c6 = true) :
    pad2 (digitsVal [c5, c6]) = [c5, c6] := by
  have hb5 : 48 ≤ c5.toNat ∧ c5.toNat ≤ 57 := by simpa [isDigitChar] using h5
  have hb6 : 48 ≤ c6.toNat ∧ c6.toNat ≤ 57 := by simpa [isDigitChar] using h6
  have hm : digitsVal [c5, c6] = (c5.toNat - 48) * 10 + (c6.toNat - 48) := by
    simp [digitsVal, List.foldl]
  by_cases h : digitsVal [c5, c6] < 10
  · have h5z : c5.toNat - 48 = 0 := by omega
    have hc5 : c5 = '0' := by
      have := digitChar_of_digit h5
      rw [h5z] at this
      rw [← this]
      rfl
    have e6 : digitsVal [c5, c6] = c6.toNat - 48 := by omega
    rw [pad2, if_pos h, e6, digitChar_of_digit h6, hc5]
  · rw [pad2, if_neg h,
      natRepr_step (by omega),
      natRepr_small (show digitsVal [c5, c6] / 10 < 10 by omega)]
    have e5 : digitsVal [c5, c6] / 10 = c5.toNat - 48 := by omega
    have e6 : digitsVal [c5, c6] % 10 = c6.toNat - 48 := by omega
    rw [e5, e6, digitChar_of_digit h5, digitChar_of_digit h6]
    rfl

lemma get_previous_month_mk {a b : List Char} {y m : ℕ}
    (ha : pyIntParse a = some y) (hb : pyIntParse b = some m)
    (hna : ∀ c ∈ a, ¬ c = '-') (hnb : ∀ c ∈ b, ¬ c = '-') :
    get_previous_month (String.mk (a ++ '-' :: b))
      = if m = 1 then some (String.mk (intRepr ((y : ℤ) - 1) ++ '-' :: ['1', '2']))
        else some (String.mk (natRepr y ++ '-' :: pyFmt02 ((m : ℤ) - 1))) := by
  have hsd : pySplitDash ((String.mk (a ++ '-' :: b)).data) = [a, b] := by
    show pySplitDash (a ++ '-' :: b) = [a, b]
    rw [pySplitDash_append _ hna, pySplitDash_no_dash hnb]
  rw [get_previous_month, hsd]
  simp [ha, hb]

/-- Claim C9, counterexample: the claim promises the round trip on every
key that passes validation, but validation also accepts the key 2025-01
followed by a newline, and there stepping forward gives 2025-02 and
stepping back gives 2025-01, which is not the original key. -/
theorem claim_C9_counterexample :
    validate_month_format "2025-01\n" = true ∧
    (navigate_month_next "2025-01\n").bind get_previous_month = some "2025-01" ∧
    ¬ (("2025-01" : String) = "2025-01\n") := by
  exact ⟨by decide, by decide, by decide⟩

/-- Claim C9, amended: the month-key steps form a round trip on exact
keys — the predecessor of 2025-01 is 2024-12, the successor of 2025-12 is
2026-01, a key that does not parse as two integers gives the no-result
marker, and for every key of exactly four ASCII digits, a hyphen and two
ASCII digits with month in one to twelve and year in 1900 to 2100,
stepping one month forward and then one month back returns the original
key.  The law does not extend to every key validation accepts: a key
with a trailing newline is accepted there yet maps to its stripped form,
and the non-ASCII digit keys the source also accepts are outside the
embedding. -/
theorem claim_C9_month_roundtrip :
    get_previous_month "2025-01" = some "2024-12" ∧
    navigate_month_next "2025-12" = some "2026-01" ∧
    get_previous_month "abc" = none ∧
    ∀ x : String, IsValidMonthKey x →
      (navigate_month_next x).bind get_previous_month = some x := by
  refine ⟨by decide, by decide, by decide, fun x hx => ?_⟩
  obtain ⟨c0, c1, c2, c3, c5, c6, hdata, h0, h1, h2, h3, h5, h6,
    hm1, hm2, hy1, hy2⟩ := hx
  have hsplit : pySplitDash x.data = [[c0, c1, c2, c3], [c5, c6]] := by
    rw [hdata]
    simp [pySplitDash, digit_ne_dash h0, digit_ne_dash h1, digit_ne_dash h2,
      digit_ne_dash h3, digit_ne_dash h5, digit_ne_dash h6]
  have hp1 : pyIntParse [c0, c1, c2, c3] = some (digitsVal [c0, c1, c2, c3]) :=
    pyIntParse_all (by simp) (by simp [h0, h1, h2, h3])
  have hp2 : pyIntParse [c5, c6] = some (digitsVal [c5, c6]) :=
    pyIntParse_all (by simp) (by simp [h5, h6])
  have hy4 : natRepr (digitsVal [c0, c1, c2, c3]) = [c0, c1, c2, c3] :=
    natRepr_of_digits4 h0 h1 h2 h3 (by omega)
  by_cases h12 : 12 < digitsVal [c5, c6] + 1
  · -- December: the month value is exactly twelve.
    have hnext : navigate_month_next x
        = some (String.mk (natRepr (digitsVal [c0, c1, c2, c3] + 1)
            ++ '-' :: pad2 1)) := by
      rw [navigate_month_next, hsplit]
      simp [hp1, hp2, h12]
    have hsd : pySplitDash (natRepr (digitsVal [c0, c1, c2, c3] + 1)
        ++ '-' :: pad2 1) = [natRepr (digitsVal [c0, c1, c2, c3] + 1), pad2 1] := by
      rw [pySplitDash_append _ (natRepr_no_dash _),
        pySplitDash_no_dash (pad2_no_dash _)]
    have hint : intRepr ((((digitsVal [c0, c1, c2, c3] + 1 : ℕ)) : ℤ) - 1)
        = natRepr (digitsVal [c0, c1, c2, c3]) := by
      have he : (((digitsVal [c0, c1, c2, c3] + 1 : ℕ)) : ℤ) - 1
          = ((digitsVal [c0, c1, c2, c3] : ℕ) : ℤ) := by push_cast; ring
      rw [he, intRepr, if_neg (by omega)]
      simp
    have hc5 : c5 = '1' := by
      have hb5 : 48 ≤ c5.toNat ∧ c5.toNat ≤ 57 := by simpa [isDigitChar] using h5
      have hb6 : 48 ≤ c6.toNat ∧ c6.toNat ≤ 57 := by simpa [isDigitChar] using h6
      have hv : digitsVal [c5, c6] = (c5.toNat - 48) * 10 + (c6.toNat - 48) := by
        simp [digitsVal, List.foldl]
      have : c5.toNat - 48 = 1 := by omega
      rw [← digitChar_of_digit h5, this]
      rfl
    have hc6 : c6 = '2' := by
      have hb5 : 48 ≤ c5.toNat ∧ c5.toNat ≤ 57 := by simpa [isDigitChar] using h5
      have hb6 : 48 ≤ c6.toNat ∧ c6.toNat ≤ 57 := by simpa [isDigitChar] using h6
      have hv : digitsVal [c5, c6] = (c5.toNat - 48) * 10 + (c6.toNat - 48) := by
        simp [digitsVal, List.foldl]
      have : c6.toNat - 48 = 2 := by omega
      rw [← digitChar_of_digit h6, this]
      rfl
    rw [hnext, Option.some_bind,
      get_previous_month_mk (pyIntParse_natRepr _) (pyIntParse_pad2 1)
        (natRepr_no_dash _) (pad2_no_dash _),
      if_pos rfl, hint, hy4]
    congr 1
    apply String.ext
    show [c0, c1, c2, c3] ++ '-' :: ['1', '2'] = x.data
    rw [hdata, hc5, hc6]
    simp
  · -- Any other month: the month value is at most eleven.
    have hnext : navigate_month_next x
        = some (String.mk (natRepr (digitsVal [c0, c1, c2, c3])
            ++ '-' :: pad2 (digitsVal [c5, c6] + 1))) := by
      rw [navigate_month_next, hsplit]
      simp [hp1, hp2, h12]
    have hsd : pySplitDash (natRepr (digitsVal [c0, c1, c2, c3])
        ++ '-' :: pad2 (digitsVal [c5, c6] + 1))
        = [natRepr (digitsVal [c0, c1, c2, c3]), pad2 (digitsVal [c5, c6] + 1)] := by
      rw [pySplitDash_append _ (natRepr_no_dash _),
        pySplitDash_no_dash (pad2_no_dash _)]
    have hfmt : pyFmt02 ((((digitsVal [c5, c6] + 1 : ℕ)) : ℤ) - 1)
        = pad2 (digitsVal [c5, c6]) := by
      have he : (((digitsVal [c5, c6] + 1 : ℕ)) : ℤ) - 1
          = ((digitsVal [c5, c6] : ℕ) : ℤ) := by push_cast; ring
      rw [he, pyFmt02, if_neg (by omega)]
      simp
    rw [hnext, Option.some_bind,
      get_previous_month_mk (pyIntParse_natRepr _) (pyIntParse_pad2 _)
        (natRepr_no_dash _) (pad2_no_dash _),
      if_neg (show ¬ digitsVal [c5, c6] + 1 = 1 by omega),
      hfmt, hy4, pad2_of_digits2 h5 h6]
    congr 1
    apply String.ext
    show [c0, c1, c2, c3] ++ '-' :: [c5, c6] = x.data
    rw [hdata]
    simp

/-- Witness for the amended claim C9 at a concrete exact key. -/
theorem claim_C9_witness :
    IsValidMonthKey "2025-06" ∧
    (navigate_month_next "2025-06").bind get_previous_month = some "2025-06" := by
  have hk : IsValidMonthKey "2025-06" :=
    ⟨'2', '0', '2', '5', '0', '6', by decide, by decide, by decide, by decide,
      by decide, by decide, by decide, by decide, by decide, by decide, by decide⟩
  exact ⟨hk, claim_C9_month_roundtrip.2.2.2 "2025-06" hk⟩

end BudgetPlanner
